import Mathlib

/-!
Verification of the LSH approximate-nearest-neighbor notebook.

The notebook's core functions (`semi_optimized_exhaustive_search`,
`generate_random_hash_functions`, `hash_vector`, `custom_indexing_algorithm`,
`custom_index_search`, `compute_recall_at_k`) are shallowly embedded below.
Modelling conventions, stated once here:

* machine floats (`np.float32`/`np.float64`) are modelled exactly as `ℚ`;
* a NumPy 2-d array is a `List` of rows; `arr.shape[1]` is the length of the
  first row;
* `np.linalg.norm(a - b)` is used by the code only to *order* candidates, so
  it is embedded as the squared Euclidean distance `dist2` — `Real.sqrt` is
  monotone on nonnegatives, hence ordering by the norm and ordering by its
  square coincide;
* `np.argsort` is modelled as a stable sort of positions by value.  NumPy's
  default quicksort is unstable, but the two can differ only in the relative
  order of positions holding *equal* values, which no property below
  constrains;
* a Python `dict` is an association list in key-insertion order; a Python
  `set` of ints accumulated by `set.update` is a duplicate-free list in
  first-insertion order (iteration order of a CPython int set is a
  deterministic function of its contents, and only tie-breaking among equal
  distances could observe it);
* `np.random.randn` is modelled by an explicit entropy source
  `ℕ → ℕ → ℕ → ℚ` giving the entry of matrix `f` at row `r`, column `c`;
* a Python call that raises (e.g. `ZeroDivisionError`, `IndexError`, the
  `TypeError` from `(-n) ** 0.65`) is modelled as `none` of an `Option`.
-/

namespace LshAnn

/-- A vector: one row of a NumPy array, components modelled as `ℚ`. -/
abbrev Vec := List ℚ

/-- A hash function: an `H × D` random-projection matrix, as a list of rows. -/
abbrev Mat := List (List ℚ)

/-- Squared Euclidean distance, the order-faithful embedding of
`np.linalg.norm(a - b)` (see header note). -/
def dist2 (a b : Vec) : ℚ := ((a.zipWith (fun x y => (x - y) ^ 2) b)).sum

/-- Order on enumerated values used to model `np.argsort`: compare the
carried value. -/
def leSnd (a b : ℕ × ℚ) : Prop := a.2 ≤ b.2

instance : DecidableRel leSnd := fun a b => inferInstanceAs (Decidable (a.2 ≤ b.2))

instance : IsTotal (ℕ × ℚ) leSnd := ⟨fun a b => le_total a.2 b.2⟩

instance : IsTrans (ℕ × ℚ) leSnd := ⟨fun _ _ _ h1 h2 => le_trans h1 h2⟩

/-- The enumerated list of `ds`, sorted stably by value (`np.argsort`'s
position/value pairs). -/
def argsortP (ds : List ℚ) : List (ℕ × ℚ) := ds.enum.insertionSort leSnd

/-- `np.argsort ds`: the positions of `ds` ordered by ascending value. -/
def argsort (ds : List ℚ) : List ℕ := (argsortP ds).map Prod.fst

/-- `semi_optimized_exhaustive_search(index_vectors, query_vectors, k)`:
for each query, distances to every index vector, `argsort`, first `k` ids. -/
def semi_optimized_exhaustive_search (index_vectors query_vectors : List Vec)
    (k : ℕ) : List (List ℕ) :=
  query_vectors.map
    (fun query_vec =>
      (argsort (index_vectors.map (fun v => dist2 v query_vec))).take k)

lemma getD_map_list {α β : Type} (f : α → β) (l : List α) (i : ℕ)
    (hi : i < l.length) (d : β) (d' : α) :
    (l.map f).getD i d = f (l.getD i d') := by
  rw [List.getD_eq_getElem _ _ (by simpa using hi), List.getElem_map,
    List.getD_eq_getElem _ _ hi]

lemma argsortP_perm (ds : List ℚ) : List.Perm (argsortP ds) ds.enum :=
  List.perm_insertionSort _ _

lemma argsortP_sorted (ds : List ℚ) : List.Sorted leSnd (argsortP ds) :=
  List.sorted_insertionSort _ _

lemma mem_argsortP {ds : List ℚ} {p : ℕ × ℚ} (h : p ∈ argsortP ds) :
    p.1 < ds.length ∧ ds.getD p.1 0 = p.2 := by
  have henum : p ∈ ds.enum := (argsortP_perm ds).mem_iff.mp h
  have : ∀ x ∈ ds.enum, x.1 < ds.length ∧ ds.getD x.1 0 = x.2 := by
    rw [List.forall_mem_enum]
    intro i hi
    exact ⟨hi, List.getD_eq_getElem _ _ hi⟩
  exact this p henum

lemma argsort_perm_range (ds : List ℚ) :
    List.Perm (argsort ds) (List.range ds.length) := by
  have h := (argsortP_perm ds).map Prod.fst
  rw [List.enum] at h
  rw [List.enumFrom_map_fst, ← List.range_eq_range'] at h
  exact h

lemma length_argsort (ds : List ℚ) : (argsort ds).length = ds.length :=
  (argsort_perm_range ds).length_eq.trans (List.length_range _)

lemma argsort_nodup (ds : List ℚ) : (argsort ds).Nodup :=
  ((argsort_perm_range ds).nodup_iff).mpr (List.nodup_range _)

lemma mem_argsort {ds : List ℚ} {t : ℕ} (h : t ∈ argsort ds) : t < ds.length := by
  have := (argsort_perm_range ds).mem_iff.mp h
  exact List.mem_range.mp this

lemma mem_argsort_of_lt {ds : List ℚ} {t : ℕ} (h : t < ds.length) :
    t ∈ argsort ds :=
  (argsort_perm_range ds).mem_iff.mpr (List.mem_range.mpr h)

lemma argsortP_snd_sorted (ds : List ℚ) :
    List.Sorted (· ≤ ·) ((argsortP ds).map Prod.snd) :=
  List.Pairwise.map Prod.snd (fun _ _ hab => hab) (argsortP_sorted ds)

lemma argsort_take_map (ds : List ℚ) (k : ℕ) :
    (argsort ds).take k = ((argsortP ds).take k).map Prod.fst := by
  rw [argsort, List.map_take]

lemma take_map_dist (ds : List ℚ) (k : ℕ) :
    ((argsort ds).take k).map (fun t => ds.getD t 0) =
      ((argsortP ds).take k).map Prod.snd := by
  rw [argsort_take_map, List.map_map]
  refine List.map_congr_left ?_
  intro p hp
  have hmem : p ∈ argsortP ds := (List.take_sublist _ _).subset hp
  exact (mem_argsortP hmem).2

lemma sorted_take_dist (ds : List ℚ) (k : ℕ) :
    List.Sorted (· ≤ ·)
      (((argsort ds).take k).map (fun t => ds.getD t 0)) := by
  rw [take_map_dist, List.map_take]
  exact List.Pairwise.sublist (List.take_sublist _ _) (argsortP_snd_sorted ds)

/-- The exact floor of `d^(num/den)` for `d ≥ 0`: the greatest `h` with
`h ^ den ≤ d ^ num`.  The program computes `int(d ** p)` with float
exponentiation, which agrees with this exact floor at every dimension a
width statement below relies on (`d = 0`, `100` and `200`, where `d^p` is
far from an integer: `100^0.65 = 19.95…`, `200^0.6 = 24.02…`) but can
undershoot it where `d^p` is an integer or nearly one (Python:
`int(243 ** 0.6) = 26` although `243^0.6 = 27` exactly), so no theorem
asserts this exact floor as the program's width universally. -/
def powFloor (d num den : ℕ) : ℕ := Nat.findGreatest (fun h => h ^ den ≤ d ^ num) d

/-- The hash width `int(dim**0.65)` (for `dim < 150`) or `int(dim**0.6)`
(otherwise), with `0.65 = 13/20` and `0.6 = 3/5`; only used at dimensions
where the float computation and `powFloor` agree (see `powFloor`). -/
def hash_size (d : ℕ) : ℕ :=
  if d < 150 then powFloor d 13 20 else powFloor d 3 5

/-- The number of hash functions: 7 below dimension 150, else 12. -/
def num_hashes (d : ℕ) : ℕ := if d < 150 then 7 else 12

/-- `generate_random_hash_functions(dim)`.  The ambient `np.random.randn`
stream is the explicit argument `entropy`.  A negative `dim` makes Python's
`dim ** 0.65` complex and `int(...)` raise a `TypeError` (`none`); `dim = 0`
raises nothing and yields 7 matrices of shape `(0, 0)`. -/
def generate_random_hash_functions (entropy : ℕ → ℕ → ℕ → ℚ) (dim : ℤ) :
    Option (List Mat) :=
  if dim < 0 then none
  else
    some ((List.range (num_hashes dim.toNat)).map (fun f =>
      (List.range (hash_size dim.toNat)).map (fun r =>
        (List.range dim.toNat).map (fun c => entropy f r c))))

lemma powFloor_100 : powFloor 100 13 20 = 19 := by
  have h1 : (19 : ℕ) ^ 20 ≤ 100 ^ 13 := by norm_num
  have h2 : ∀ n, 19 < n → n ≤ 100 → ¬ (n ^ 20 ≤ 100 ^ 13) := by
    intro n hn _ hcon
    have h20 : (20 : ℕ) ^ 20 ≤ n ^ 20 := Nat.pow_le_pow_left (by omega) _
    have := le_trans h20 hcon
    norm_num at this
  exact Nat.findGreatest_eq_iff.mpr ⟨by norm_num, fun _ => h1, h2⟩

lemma powFloor_200 : powFloor 200 3 5 = 24 := by
  have h1 : (24 : ℕ) ^ 5 ≤ 200 ^ 3 := by norm_num
  have h2 : ∀ n, 24 < n → n ≤ 200 → ¬ (n ^ 5 ≤ 200 ^ 3) := by
    intro n hn _ hcon
    have h25 : (25 : ℕ) ^ 5 ≤ n ^ 5 := Nat.pow_le_pow_left (by omega) _
    have := le_trans h25 hcon
    norm_num at this
  exact Nat.findGreatest_eq_iff.mpr ⟨by norm_num, fun _ => h1, h2⟩

/-- C3 counterexample: at `D = 100` the generator's hash width is
`int(100**0.65) = 19`, not 21 as the claim computes (and at `D = 200` it is
24, not 22). -/
theorem hash_family_width_100_not_21 :
    ((generate_random_hash_functions (fun _ _ _ => 0) 100).map
        (fun fam => fam.map List.length)) = some (List.replicate 7 19) ∧
      ((generate_random_hash_functions (fun _ _ _ => 0) 200).map
        (fun fam => fam.map List.length)) = some (List.replicate 12 24) ∧
      (19 ≠ 21 ∧ 24 ≠ 22) := by
  refine ⟨?_, ?_, by norm_num⟩
  · rw [generate_random_hash_functions, if_neg (by norm_num)]
    have : hash_size (100 : ℤ).toNat = 19 := by
      rw [show ((100 : ℤ).toNat) = 100 from rfl, hash_size, if_pos (by norm_num),
        powFloor_100]
    rw [this]
    rfl
  · rw [generate_random_hash_functions, if_neg (by norm_num)]
    have : hash_size (200 : ℤ).toNat = 24 := by
      rw [show ((200 : ℤ).toNat) = 200 from rfl, hash_size, if_neg (by norm_num),
        powFloor_200]
    rw [this]
    rfl

/-- C3 (amended): for every positive `D` the generator returns `F = 7`
matrices when `D < 150` and `F = 12` when `D ≥ 150`, each with `D` columns
and all sharing one width (the program's `int(D**0.65)` resp.
`int(D**0.6)`); at the spec's probe points that width is 19 for `D = 100`
and 24 for `D = 200` — not 21 and 22.  No universal `H = ⌊D^p⌋` is
asserted: the program computes the width with float `**`, which undershoots
the exact floor at near-integer powers (`int(243 ** 0.6) = 26` although
`243^0.6 = 27` exactly); at 100 and 200 the float value and the exact floor
agree (`19.95…` and `24.02…`). -/
theorem hash_family_shape (entropy : ℕ → ℕ → ℕ → ℚ) (dim : ℤ)
    (hdim : 0 < dim) :
    ∃ fam, generate_random_hash_functions entropy dim = some fam ∧
      fam.length = (if dim.toNat < 150 then 7 else 12) ∧
      (∀ m ∈ fam, ∀ row ∈ m, row.length = dim.toNat) ∧
      (∀ m ∈ fam, ∀ m' ∈ fam, m.length = m'.length) ∧
      (dim = 100 → ∀ m ∈ fam, m.length = 19) ∧
      (dim = 200 → ∀ m ∈ fam, m.length = 24) := by
  refine ⟨_, by rw [generate_random_hash_functions, if_neg (by omega)],
    ?_, ?_, ?_, ?_, ?_⟩
  · simp [num_hashes]
  · intro m hm row hrow
    obtain ⟨f, _, rfl⟩ := List.mem_map.mp hm
    obtain ⟨r, _, rfl⟩ := List.mem_map.mp hrow
    simp
  · intro m hm m' hm'
    obtain ⟨f, _, rfl⟩ := List.mem_map.mp hm
    obtain ⟨f', _, rfl⟩ := List.mem_map.mp hm'
    simp
  · rintro rfl m hm
    obtain ⟨f, _, rfl⟩ := List.mem_map.mp hm
    simp only [List.length_map, List.length_range]
    rw [show ((100 : ℤ).toNat) = 100 from rfl, hash_size,
      if_pos (by norm_num), powFloor_100]
  · rintro rfl m hm
    obtain ⟨f, _, rfl⟩ := List.mem_map.mp hm
    simp only [List.length_map, List.length_range]
    rw [show ((200 : ℤ).toNat) = 200 from rfl, hash_size,
      if_neg (by norm_num), powFloor_200]

/-- Witness for C3 (amended), at `D = 100`. -/
theorem hash_family_shape_witness :
    (0 : ℤ) < 100 ∧
    (∃ fam, generate_random_hash_functions (fun _ _ _ => 0) 100 = some fam ∧
      fam.length = (if (100 : ℤ).toNat < 150 then 7 else 12) ∧
      (∀ m ∈ fam, ∀ row ∈ m, row.length = (100 : ℤ).toNat) ∧
      (∀ m ∈ fam, ∀ m' ∈ fam, m.length = m'.length) ∧
      ((100 : ℤ) = 100 → ∀ m ∈ fam, m.length = 19) ∧
      ((100 : ℤ) = 200 → ∀ m ∈ fam, m.length = 24)) :=
  ⟨by norm_num, hash_family_shape (fun _ _ _ => 0) 100 (by norm_num)⟩

/-- C4 counterexample: at `D = 0` (a `D ≤ 0` input) the generator does not
fail — it returns a hash family of 7 matrices of shape `(0, 0)`. -/
theorem hash_family_zero_dim_returns :
    generate_random_hash_functions (fun _ _ _ => 0) 0 =
      some (List.replicate 7 []) := by
  rw [generate_random_hash_functions, if_neg (by norm_num)]
  rfl

/-- C4 (amended): the generator has no `InvalidDimension` check.  A negative
`D` does fail (the float exponentiation raises a `TypeError`), but `D = 0`
is accepted and yields 7 empty matrices instead of an error. -/
theorem hash_family_dim_handling (entropy : ℕ → ℕ → ℕ → ℚ) (dim : ℤ) :
    (dim < 0 → generate_random_hash_functions entropy dim = none) ∧
      generate_random_hash_functions entropy 0 =
        some (List.replicate 7 []) := by
  constructor
  · intro hneg
    rw [generate_random_hash_functions, if_pos hneg]
  · rw [generate_random_hash_functions, if_neg (by norm_num)]
    rfl

/-- Witness for C4 (amended), at `D = -1`. -/
theorem hash_family_dim_handling_witness :
    generate_random_hash_functions (fun _ _ _ => 0) (-1) = none :=
  (hash_family_dim_handling (fun _ _ _ => 0) (-1)).1 (by norm_num)

/-- C2: for every vector collection, every query batch and every `k ≥ 1`,
`semi_optimized_exhaustive_search` returns one row per query; each row
holds exactly `min k N` index ids and the true Euclidean distances from the
query to the returned index vectors are non-decreasing along the row
(stated via `dist2`; the squared distance orders exactly as the distance). -/
theorem exhaustive_search_min_k_sorted (ivs qvs : List Vec) (k : ℕ)
    (hk : 1 ≤ k) :
    (semi_optimized_exhaustive_search ivs qvs k).length = qvs.length ∧
    ∀ i, i < qvs.length →
      ((semi_optimized_exhaustive_search ivs qvs k).getD i []).length
          = min k ivs.length ∧
      List.Sorted (· ≤ ·)
        (((semi_optimized_exhaustive_search ivs qvs k).getD i []).map
          (fun j => dist2 (ivs.getD j []) (qvs.getD i []))) := by
  constructor
  · simp [semi_optimized_exhaustive_search]
  intro i hi
  have hrow : (semi_optimized_exhaustive_search ivs qvs k).getD i [] =
      (argsort (ivs.map (fun v => dist2 v (qvs.getD i [])))).take k := by
    unfold semi_optimized_exhaustive_search
    rw [getD_map_list _ qvs i hi [] []]
  rw [hrow]
  have hdlen : (ivs.map (fun v => dist2 v (qvs.getD i []))).length = ivs.length := by
    simp
  refine ⟨by rw [List.length_take, length_argsort, hdlen], ?_⟩
  have hmap : ((argsort (ivs.map (fun v => dist2 v (qvs.getD i [])))).take k).map
        (fun j => dist2 (ivs.getD j []) (qvs.getD i [])) =
      ((argsort (ivs.map (fun v => dist2 v (qvs.getD i [])))).take k).map
        (fun t => (ivs.map (fun v => dist2 v (qvs.getD i []))).getD t 0) := by
    refine List.map_congr_left ?_
    intro t ht
    have htl := mem_argsort ((List.take_sublist _ _).subset ht)
    rw [getD_map_list _ ivs t (hdlen ▸ htl) 0 []]
  rw [hmap]
  exact sorted_take_dist _ k

/-- Witness for C2, on the spec's own scenario: collection
`[[0,0],[10,10],[0.1,0.1]]`, query `[0,0]`, `k = 2`. -/
theorem exhaustive_search_min_k_sorted_witness :
    1 ≤ 2 ∧
    ((semi_optimized_exhaustive_search [[0, 0], [10, 10], [1/10, 1/10]]
        [[0, 0]] 2).length = [[(0 : ℚ), 0]].length ∧
    ∀ i, i < [[(0 : ℚ), 0]].length →
      ((semi_optimized_exhaustive_search [[0, 0], [10, 10], [1/10, 1/10]]
          [[0, 0]] 2).getD i []).length
          = min 2 [[(0 : ℚ), 0], [10, 10], [1/10, 1/10]].length ∧
      List.Sorted (· ≤ ·)
        (((semi_optimized_exhaustive_search [[0, 0], [10, 10], [1/10, 1/10]]
            [[0, 0]] 2).getD i []).map
          (fun j => dist2 ([[(0 : ℚ), 0], [10, 10], [1/10, 1/10]].getD j [])
            ([[(0 : ℚ), 0]].getD i [])))) :=
  ⟨by norm_num,
    exhaustive_search_min_k_sorted [[0, 0], [10, 10], [1/10, 1/10]] [[0, 0]] 2
      (by norm_num)⟩

/-- `len(set(a) & set(b))` as the Python ints compute it: deduplicate `a`,
keep the members of `b`, count. -/
def setInterCard (a b : List ℕ) : ℕ :=
  (a.dedup.filter (fun x => decide (x ∈ b))).length

/-- Round half to even, Python's `round` tie rule. -/
def roundHalfEven (q : ℚ) : ℤ :=
  if Int.fract q < 1 / 2 then ⌊q⌋
  else if 1 / 2 < Int.fract q then ⌊q⌋ + 1
  else if ⌊q⌋ % 2 = 0 then ⌊q⌋ else ⌊q⌋ + 1

/-- Python's `round(q, 3)`. -/
def pyRound3 (q : ℚ) : ℚ := (roundHalfEven (q * 1000) : ℚ) / 1000

/-- `compute_recall_at_k(nn_gt, ann, k)`.  The `none` cases are the raising
runs: `len(ann) = 0` and `k = 0` divide by zero, and more `ann` rows than
`nn_gt` rows hit an `IndexError` at `nn_gt[i]`. -/
def compute_recall_at_k (nn_gt ann : List (List ℕ)) (k : ℤ) : Option ℚ :=
  if ann.length = 0 ∨ k = 0 ∨ nn_gt.length < ann.length then none
  else
    some (pyRound3
      ((((List.range ann.length).map
          (fun i => (setInterCard (ann.getD i []) (nn_gt.getD i []) : ℚ) / (k : ℚ))).sum)
        / (ann.length : ℚ)))

lemma setInterCard_eq (a b : List ℕ) :
    setInterCard a b = (a.toFinset ∩ b.toFinset).card := by
  rw [setInterCard]
  have hnd : (a.dedup.filter (fun x => decide (x ∈ b))).Nodup :=
    (a.nodup_dedup).filter _
  rw [← List.toFinset_card_of_nodup hnd]
  congr 1
  ext x
  simp [List.mem_filter, List.mem_dedup, Finset.mem_inter]

/-- C5: for equal-length nonempty batches and `k ≥ 1`, `compute_recall_at_k`
is the mean over queries of `|set(ann[i]) ∩ set(nn_gt[i])| / k` — genuine
set semantics, duplicates in a list never double-count — rounded to 3
decimal digits; a query with empty `ann[i]` contributes `0` (no error). -/
theorem recall_at_k_mean (nn_gt ann : List (List ℕ)) (k : ℤ)
    (hlen : nn_gt.length = ann.length) (hne : ann ≠ []) (hk : 1 ≤ k) :
    compute_recall_at_k nn_gt ann k =
      some (pyRound3
        ((((List.range ann.length).map
            (fun i => ((((ann.getD i []).toFinset ∩ (nn_gt.getD i []).toFinset).card : ℚ))
              / (k : ℚ))).sum)
          / (ann.length : ℚ))) ∧
    ∀ i, ann.getD i [] = [] →
      ((((ann.getD i []).toFinset ∩ (nn_gt.getD i []).toFinset).card : ℚ)) / (k : ℚ)
        = 0 := by
  constructor
  · have hne' : ann.length ≠ 0 := by simpa using hne
    rw [compute_recall_at_k, if_neg (by push_neg; exact ⟨hne', by omega, by omega⟩)]
    have hmapeq : (List.range ann.length).map
        (fun i => (setInterCard (ann.getD i []) (nn_gt.getD i []) : ℚ) / (k : ℚ)) =
        (List.range ann.length).map
        (fun i => ((((ann.getD i []).toFinset ∩ (nn_gt.getD i []).toFinset).card : ℚ))
          / (k : ℚ)) := by
      refine List.map_congr_left ?_
      intro i _
      rw [setInterCard_eq]
    rw [hmapeq]
  · intro i hi
    rw [hi]
    simp

/-- Witness for C5: `nn_gt = [[0,1],[2]]`, `ann = [[1,1],[]]`, `k = 2`. -/
theorem recall_at_k_mean_witness :
    ([[0, 1], [2]] : List (List ℕ)).length = ([[1, 1], []] : List (List ℕ)).length ∧
    ([[1, 1], []] : List (List ℕ)) ≠ [] ∧ (1 : ℤ) ≤ 2 ∧
    (compute_recall_at_k [[0, 1], [2]] [[1, 1], []] 2 =
      some (pyRound3
        ((((List.range ([[1, 1], []] : List (List ℕ)).length).map
            (fun i => ((((([[1, 1], []] : List (List ℕ)).getD i []).toFinset ∩
                (([[0, 1], [2]] : List (List ℕ)).getD i []).toFinset).card : ℚ))
              / ((2 : ℤ) : ℚ))).sum)
          / (([[1, 1], []] : List (List ℕ)).length : ℚ))) ∧
    ∀ i, ([[1, 1], []] : List (List ℕ)).getD i [] = [] →
      ((((([[1, 1], []] : List (List ℕ)).getD i []).toFinset ∩
          (([[0, 1], [2]] : List (List ℕ)).getD i []).toFinset).card : ℚ))
        / ((2 : ℤ) : ℚ) = 0) :=
  ⟨rfl, by simp, by norm_num,
    recall_at_k_mean [[0, 1], [2]] [[1, 1], []] 2 rfl (by simp) (by norm_num)⟩

/-- C6 counterexample: `k = -1 ≤ 0` yet a score (here `-1.0`) is returned,
and `ann` having fewer queries than `nn_gt` also returns a score instead of
failing. -/
lemma roundHalfEven_intCast (n : ℤ) : roundHalfEven (n : ℚ) = n := by
  rw [roundHalfEven, Int.fract_intCast]
  norm_num

lemma pyRound3_intCast (n : ℤ) : pyRound3 (n : ℚ) = n := by
  have h : ((n : ℚ)) * 1000 = ((n * 1000 : ℤ) : ℚ) := by push_cast; ring
  rw [pyRound3, h, roundHalfEven_intCast]
  push_cast
  field_simp

theorem recall_at_k_no_validation :
    compute_recall_at_k [[0]] [[0]] (-1) = some (-1) ∧
      (([[0], [1]] : List (List ℕ)).length ≠ ([[0]] : List (List ℕ)).length ∧
        compute_recall_at_k [[0], [1]] [[0]] 1 = some 1) := by
  have hm1 : pyRound3 (-1) = -1 := by
    have h := pyRound3_intCast (-1)
    push_cast at h
    exact h
  have hp1 : pyRound3 1 = 1 := by
    have h := pyRound3_intCast 1
    push_cast at h
    exact h
  refine ⟨?_, by norm_num, ?_⟩
  · rw [compute_recall_at_k, if_neg (by norm_num)]
    norm_num [(show List.range 1 = [0] from rfl),
      (show setInterCard [0] [0] = 1 from rfl), hm1]
  · rw [compute_recall_at_k, if_neg (by norm_num)]
    norm_num [(show List.range 1 = [0] from rfl),
      (show setInterCard [0] [0] = 1 from rfl), hp1]

/-- C6 (amended): `compute_recall_at_k` performs no input validation.  It
fails exactly when Python raises — empty `ann`, `k = 0`, or strictly more
`ann` rows than `nn_gt` rows; in particular `k < 0` and an `ann` batch
*shorter* than the ground truth return a (meaningless) score instead of a
`ShapeMismatch`/`InvalidArgument` error. -/
theorem recall_at_k_error_iff (nn_gt ann : List (List ℕ)) (k : ℤ) :
    compute_recall_at_k nn_gt ann k = none ↔
      (ann.length = 0 ∨ k = 0 ∨ nn_gt.length < ann.length) := by
  rw [compute_recall_at_k]
  by_cases h : ann.length = 0 ∨ k = 0 ∨ nn_gt.length < ann.length
  · rw [if_pos h]
    exact iff_of_true rfl h
  · rw [if_neg h]
    exact iff_of_false (by simp) h

/-- `hash_vector(vector, hash_function)`: project (`np.dot(hash_function,
vector)`, row-by-row dot products) and threshold each output strictly at
zero, giving the signature bit tuple. -/
def hash_vector (vector : Vec) (hash_function : Mat) : List Bool :=
  hash_function.map (fun row => decide (0 < (row.zipWith (· * ·) vector).sum))

/-- One Python `dict` keyed by signatures: an association list in
key-insertion order. -/
abbrev HashTable := List (List Bool × List ℕ)

/-- `hash_key in hash_table` / `hash_table[hash_key]`. -/
def bucketLookup (ht : HashTable) (key : List Bool) : Option (List ℕ) :=
  match ht with
  | [] => none
  | (k, l) :: rest => if k = key then some l else bucketLookup rest key

/-- `hash_tables[j].setdefault(hash_key, []).append(i)`: append `i` to the
bucket at `key`, creating the bucket at the end of the dict if absent. -/
def htInsert (ht : HashTable) (key : List Bool) (i : ℕ) : HashTable :=
  match ht with
  | [] => [(key, [i])]
  | (k, l) :: rest =>
      if k = key then (k, l ++ [i]) :: rest else (k, l) :: htInsert rest key i

/-- `custom_indexing_algorithm(index_vectors, hash_functions)`: for each
vector `i` in order, for each hash function `j`, insert `i` into table `j`
under the vector's signature. -/
def custom_indexing_algorithm (index_vectors : List Vec)
    (hash_functions : List Mat) : List HashTable :=
  index_vectors.enum.foldl
    (fun tables p =>
      (hash_functions.zip tables).map
        (fun ft => htInsert ft.2 (hash_vector p.2 ft.1) p.1))
    (hash_functions.map (fun _ => []))

/-- `max_candidates = 1000 if index_vectors.shape[1] < 150 else 1400`. -/
def max_candidates (index_vectors : List Vec) : ℕ :=
  if (index_vectors.headD []).length < 150 then 1000 else 1400

/-- One step of `candidate_indices.update(...)`: Python-set insertion of one
int, modelled as append-if-absent. -/
def dedupInsert (acc : List ℕ) (x : ℕ) : List ℕ :=
  if x ∈ acc then acc else acc ++ [x]

/-- The candidate set of one query: probe each `(hash_function, hash_table)`
pair, and on a key hit pour the first `cap` ids of the bucket into the
accumulated set. -/
def gather_candidates (q : Vec) (hfs : List Mat) (hts : List HashTable)
    (cap : ℕ) : List ℕ :=
  (hfs.zip hts).foldl
    (fun acc ft =>
      match bucketLookup ft.2 (hash_vector q ft.1) with
      | some b => (b.take cap).foldl dedupInsert acc
      | none => acc)
    []

/-- The per-query body of `custom_index_search`: gather candidates, return
`[]` on an empty set, else re-rank by exact distance and keep the first
`k`. -/
def search_query (ivs : List Vec) (hfs : List Mat) (hts : List HashTable)
    (k cap : ℕ) (q : Vec) : List ℕ :=
  let cands := gather_candidates q hfs hts cap
  if cands = [] then []
  else
    ((argsort (cands.map (fun j => dist2 (ivs.getD j []) q))).take k).map
      (fun t => cands.getD t 0)

/-- `custom_index_search(query_vectors, index_vectors, hash_functions,
hash_tables, k)`. -/
def custom_index_search (query_vectors index_vectors : List Vec)
    (hash_functions : List Mat) (hash_tables : List HashTable) (k : ℕ) :
    List (List ℕ) :=
  query_vectors.map
    (search_query index_vectors hash_functions hash_tables k
      (max_candidates index_vectors))

lemma dedupInsert_nodup {acc : List ℕ} (h : acc.Nodup) (x : ℕ) :
    (dedupInsert acc x).Nodup := by
  rw [dedupInsert]
  split
  · exact h
  · next hx =>
      refine List.Nodup.append h (List.nodup_singleton x) ?_
      intro a ha hax
      rw [List.mem_singleton] at hax
      subst hax
      exact hx ha

lemma mem_dedupInsert {acc : List ℕ} {x y : ℕ} :
    y ∈ dedupInsert acc x ↔ y ∈ acc ∨ y = x := by
  rw [dedupInsert]
  split
  · next hx =>
      constructor
      · exact Or.inl
      · rintro (h | rfl)
        · exact h
        · exact hx
  · next hx => simp [List.mem_append]

lemma foldl_dedupInsert_nodup (b : List ℕ) :
    ∀ acc : List ℕ, acc.Nodup → (b.foldl dedupInsert acc).Nodup := by
  induction b with
  | nil => exact fun _ h => h
  | cons y b ih => exact fun _ h => ih _ (dedupInsert_nodup h y)

lemma mem_foldl_dedupInsert {x : ℕ} (b : List ℕ) :
    ∀ acc : List ℕ, x ∈ b.foldl dedupInsert acc → x ∈ acc ∨ x ∈ b := by
  induction b with
  | nil => exact fun _ h => Or.inl h
  | cons y b ih =>
      intro acc h
      rcases ih _ h with h' | h'
      · rcases mem_dedupInsert.mp h' with h'' | rfl
        · exact Or.inl h''
        · exact Or.inr (List.mem_cons_self _ _)
      · exact Or.inr (List.mem_cons_of_mem _ h')

lemma foldl_gather_nodup (q : Vec) (cap : ℕ) (l : List (Mat × HashTable)) :
    ∀ acc : List ℕ, acc.Nodup →
      (l.foldl (fun acc ft =>
        match bucketLookup ft.2 (hash_vector q ft.1) with
        | some b => (b.take cap).foldl dedupInsert acc
        | none => acc) acc).Nodup := by
  induction l with
  | nil => exact fun _ h => h
  | cons ft l ih =>
      intro acc h
      rw [List.foldl_cons]
      refine ih _ ?_
      cases hb : bucketLookup ft.2 (hash_vector q ft.1) with
      | none => exact h
      | some b => exact foldl_dedupInsert_nodup _ _ h

lemma mem_foldl_gather {x : ℕ} (q : Vec) (cap : ℕ) (l : List (Mat × HashTable)) :
    ∀ acc : List ℕ, x ∈ l.foldl (fun acc ft =>
        match bucketLookup ft.2 (hash_vector q ft.1) with
        | some b => (b.take cap).foldl dedupInsert acc
        | none => acc) acc →
      x ∈ acc ∨ ∃ ft ∈ l, ∃ b,
        bucketLookup ft.2 (hash_vector q ft.1) = some b ∧ x ∈ b.take cap := by
  induction l with
  | nil => exact fun _ h => Or.inl h
  | cons ft l ih =>
      intro acc h
      rw [List.foldl_cons] at h
      rcases ih _ h with h' | ⟨ft', hft', b, hb, hxb⟩
      · cases hb : bucketLookup ft.2 (hash_vector q ft.1) with
        | none =>
            rw [hb] at h'
            exact Or.inl h'
        | some b =>
            rw [hb] at h'
            rcases mem_foldl_dedupInsert _ _ h' with h'' | h''
            · exact Or.inl h''
            · exact Or.inr ⟨ft, List.mem_cons_self _ _, b, hb, h''⟩
      · exact Or.inr ⟨ft', List.mem_cons_of_mem _ hft', b, hb, hxb⟩

lemma gather_candidates_nodup (q : Vec) (hfs : List Mat) (hts : List HashTable)
    (cap : ℕ) : (gather_candidates q hfs hts cap).Nodup :=
  foldl_gather_nodup q cap (hfs.zip hts) [] List.nodup_nil

lemma mem_gather_candidates {x : ℕ} {q : Vec} {hfs : List Mat}
    {hts : List HashTable} {cap : ℕ} (h : x ∈ gather_candidates q hfs hts cap) :
    ∃ ft ∈ hfs.zip hts, ∃ b,
      bucketLookup ft.2 (hash_vector q ft.1) = some b ∧ x ∈ b.take cap := by
  rw [gather_candidates] at h
  rcases mem_foldl_gather q cap (hfs.zip hts) [] h with h' | h'
  · simp at h'
  · exact h'

/-- The exact re-ranking step of `custom_index_search`: sort the candidate
ids by distance to the query and keep the first `k`. -/
def rerank (ivs : List Vec) (q : Vec) (k : ℕ) (cands : List ℕ) : List ℕ :=
  ((argsort (cands.map (fun j => dist2 (ivs.getD j []) q))).take k).map
    (fun t => cands.getD t 0)

lemma search_query_eq (ivs : List Vec) (hfs : List Mat) (hts : List HashTable)
    (k cap : ℕ) (q : Vec) (hne : gather_candidates q hfs hts cap ≠ []) :
    search_query ivs hfs hts k cap q =
      rerank ivs q k (gather_candidates q hfs hts cap) :=
  if_neg hne

lemma search_query_empty (ivs : List Vec) (hfs : List Mat)
    (hts : List HashTable) (k cap : ℕ) (q : Vec)
    (he : gather_candidates q hfs hts cap = []) :
    search_query ivs hfs hts k cap q = [] :=
  if_pos he

lemma custom_index_search_getD (qvs ivs : List Vec) (hfs : List Mat)
    (hts : List HashTable) (k : ℕ) {i : ℕ} (hi : i < qvs.length) :
    (custom_index_search qvs ivs hfs hts k).getD i [] =
      search_query ivs hfs hts k (max_candidates ivs) (qvs.getD i []) := by
  rw [custom_index_search, getD_map_list _ qvs i hi [] []]

lemma rerank_length (ivs : List Vec) (q : Vec) (k : ℕ) (cands : List ℕ) :
    (rerank ivs q k cands).length = min k cands.length := by
  rw [rerank, List.length_map, List.length_take, length_argsort, List.length_map]

lemma rerank_subset (ivs : List Vec) (q : Vec) (k : ℕ) (cands : List ℕ) :
    ∀ r ∈ rerank ivs q k cands, r ∈ cands := by
  intro r hr
  rw [rerank] at hr
  obtain ⟨t, ht, rfl⟩ := List.mem_map.mp hr
  have htl : t < cands.length := by
    have h1 := mem_argsort ((List.take_sublist _ _).subset ht)
    simpa using h1
  rw [List.getD_eq_getElem _ _ htl]
  exact List.getElem_mem htl

lemma rerank_map_dist (ivs : List Vec) (q : Vec) (k : ℕ) (cands : List ℕ) :
    (rerank ivs q k cands).map (fun j => dist2 (ivs.getD j []) q) =
      ((argsort (cands.map (fun j => dist2 (ivs.getD j []) q))).take k).map
        (fun t => (cands.map (fun j => dist2 (ivs.getD j []) q)).getD t 0) := by
  rw [rerank, List.map_map]
  refine List.map_congr_left ?_
  intro t ht
  have htl : t < cands.length := by
    have h1 := mem_argsort ((List.take_sublist _ _).subset ht)
    simpa using h1
  simp only [Function.comp]
  rw [getD_map_list (fun j => dist2 (ivs.getD j []) q) cands t htl 0 0]

lemma rerank_sorted (ivs : List Vec) (q : Vec) (k : ℕ) (cands : List ℕ) :
    List.Sorted (· ≤ ·)
      ((rerank ivs q k cands).map (fun j => dist2 (ivs.getD j []) q)) := by
  rw [rerank_map_dist]
  exact sorted_take_dist _ _

lemma rerank_complete (ivs : List Vec) (q : Vec) (k : ℕ) (cands : List ℕ)
    (hlen : cands.length ≤ k) : ∀ c ∈ cands, c ∈ rerank ivs q k cands := by
  intro c hc
  rw [rerank]
  have hds : (cands.map (fun j => dist2 (ivs.getD j []) q)).length = cands.length := by
    simp
  rw [List.take_of_length_le (by rw [length_argsort, hds]; exact hlen)]
  obtain ⟨t, htl, rfl⟩ := List.mem_iff_getElem.mp hc
  refine List.mem_map.mpr ⟨t, ?_, ?_⟩
  · exact mem_argsort_of_lt (by rw [hds]; exact htl)
  · rw [List.getD_eq_getElem _ _ htl]

lemma rerank_nodup (ivs : List Vec) (q : Vec) (k : ℕ) (cands : List ℕ)
    (hnd : cands.Nodup) : (rerank ivs q k cands).Nodup := by
  rw [rerank]
  refine List.Nodup.map_on ?_ ((List.take_sublist _ _).nodup (argsort_nodup _))
  intro x hx y hy hxy
  have hxl : x < cands.length := by
    have h1 := mem_argsort ((List.take_sublist _ _).subset hx)
    simpa using h1
  have hyl : y < cands.length := by
    have h1 := mem_argsort ((List.take_sublist _ _).subset hy)
    simpa using h1
  rw [List.getD_eq_getElem _ _ hxl, List.getD_eq_getElem _ _ hyl] at hxy
  exact (hnd.getElem_inj_iff).mp hxy

lemma rerank_dominates (ivs : List Vec) (q : Vec) (k : ℕ) (cands : List ℕ)
    (c : ℕ) (hc : c ∈ cands) (hnotin : c ∉ rerank ivs q k cands) :
    ∀ r ∈ rerank ivs q k cands,
      dist2 (ivs.getD r []) q ≤ dist2 (ivs.getD c []) q := by
  intro r hr
  have hdlen : (cands.map (fun j => dist2 (ivs.getD j []) q)).length
      = cands.length := by simp
  obtain ⟨t, htl, hct⟩ := List.mem_iff_getElem.mp hc
  have htarg : t ∈ argsort (cands.map (fun j => dist2 (ivs.getD j []) q)) :=
    mem_argsort_of_lt (by rw [hdlen]; exact htl)
  rw [argsort] at htarg
  obtain ⟨p, hp, hpt⟩ := List.mem_map.mp htarg
  have hsplit : p ∈ (argsortP (cands.map (fun j => dist2 (ivs.getD j []) q))).take k ∨
      p ∈ (argsortP (cands.map (fun j => dist2 (ivs.getD j []) q))).drop k := by
    rw [← List.mem_append, List.take_append_drop]
    exact hp
  rcases hsplit with hpk | hpk
  · exfalso
    apply hnotin
    rw [rerank, argsort_take_map]
    refine List.mem_map.mpr ⟨p.1, List.mem_map.mpr ⟨p, hpk, rfl⟩, ?_⟩
    rw [hpt, List.getD_eq_getElem _ _ htl, hct]
  · rw [rerank, argsort_take_map] at hr
    obtain ⟨t', ht', hrt⟩ := List.mem_map.mp hr
    obtain ⟨p', hp'k, hp't⟩ := List.mem_map.mp ht'
    have hrel : leSnd p' p :=
      (argsortP_sorted _).rel_of_mem_take_of_mem_drop hp'k hpk
    have hp'mem : p' ∈ argsortP (cands.map (fun j => dist2 (ivs.getD j []) q)) :=
      (List.take_sublist _ _).subset hp'k
    have h1 := mem_argsortP hp'mem
    have h2 := mem_argsortP hp
    have hr1 : r = cands.getD p'.1 0 := by rw [← hrt, hp't]
    have hrd : dist2 (ivs.getD r []) q = p'.2 := by
      rw [hr1, ← h1.2, getD_map_list (fun j => dist2 (ivs.getD j []) q) cands
        p'.1 (by simpa using h1.1) 0 0]
    have hcd : dist2 (ivs.getD c []) q = p.2 := by
      have h3 := h2.2
      rw [getD_map_list (fun j => dist2 (ivs.getD j []) q) cands
        p.1 (by simpa using h2.1) 0 0] at h3
      rw [← h3, hpt, List.getD_eq_getElem _ _ htl, hct]
    rw [hrd, hcd]
    exact hrel

/-- C1: per query, when the candidate set is non-empty, `custom_index_search`
returns exactly `min k |candidates|` ids, ordered by ascending true distance
to the query (via `dist2`), every returned id's distance is ≤ the distance
of every examined-but-excluded candidate, and with fewer than `k` candidates
all of them are returned — never padded. -/
theorem custom_search_rerank_correct (qvs ivs : List Vec) (hfs : List Mat)
    (hts : List HashTable) (k i : ℕ) (hi : i < qvs.length)
    (hne : gather_candidates (qvs.getD i []) hfs hts (max_candidates ivs) ≠ []) :
    ((custom_index_search qvs ivs hfs hts k).getD i []).length
        = min k (gather_candidates (qvs.getD i []) hfs hts (max_candidates ivs)).length ∧
    List.Sorted (· ≤ ·)
      (((custom_index_search qvs ivs hfs hts k).getD i []).map
        (fun j => dist2 (ivs.getD j []) (qvs.getD i []))) ∧
    (∀ c ∈ gather_candidates (qvs.getD i []) hfs hts (max_candidates ivs),
      c ∉ (custom_index_search qvs ivs hfs hts k).getD i [] →
      ∀ r ∈ (custom_index_search qvs ivs hfs hts k).getD i [],
        dist2 (ivs.getD r []) (qvs.getD i [])
          ≤ dist2 (ivs.getD c []) (qvs.getD i [])) ∧
    ((gather_candidates (qvs.getD i []) hfs hts (max_candidates ivs)).length ≤ k →
      ∀ c ∈ gather_candidates (qvs.getD i []) hfs hts (max_candidates ivs),
        c ∈ (custom_index_search qvs ivs hfs hts k).getD i []) := by
  rw [custom_index_search_getD qvs ivs hfs hts k hi,
    search_query_eq ivs hfs hts k (max_candidates ivs) (qvs.getD i []) hne]
  refine ⟨rerank_length _ _ _ _, rerank_sorted _ _ _ _, ?_, ?_⟩
  · intro c hc hnotin r hr
    exact rerank_dominates ivs (qvs.getD i []) k _ c hc hnotin r hr
  · intro hlen c hc
    exact rerank_complete ivs (qvs.getD i []) k _ hlen c hc

/-- Witness for C1: one 1-d hash function `[[1]]`, index vectors
`[[0], [2]]`, query `[1]`, `k = 2`; the query's candidate set is `[1]`. -/
theorem custom_search_rerank_correct_witness :
    (0 < ([[(1 : ℚ)]] : List Vec).length ∧
      gather_candidates (([[(1 : ℚ)]] : List Vec).getD 0 []) [[[1]]]
        (custom_indexing_algorithm [[0], [2]] [[[1]]])
        (max_candidates [[0], [2]]) ≠ []) ∧
    (((custom_index_search [[1]] [[0], [2]] [[[1]]]
          (custom_indexing_algorithm [[0], [2]] [[[1]]]) 2).getD 0 []).length
        = min 2 (gather_candidates (([[(1 : ℚ)]] : List Vec).getD 0 []) [[[1]]]
            (custom_indexing_algorithm [[0], [2]] [[[1]]])
            (max_candidates [[0], [2]])).length ∧
    List.Sorted (· ≤ ·)
      (((custom_index_search [[1]] [[0], [2]] [[[1]]]
          (custom_indexing_algorithm [[0], [2]] [[[1]]]) 2).getD 0 []).map
        (fun j => dist2 (([[(0 : ℚ)], [2]] : List Vec).getD j [])
          (([[(1 : ℚ)]] : List Vec).getD 0 []))) ∧
    (∀ c ∈ gather_candidates (([[(1 : ℚ)]] : List Vec).getD 0 []) [[[1]]]
        (custom_indexing_algorithm [[0], [2]] [[[1]]]) (max_candidates [[0], [2]]),
      c ∉ (custom_index_search [[1]] [[0], [2]] [[[1]]]
          (custom_indexing_algorithm [[0], [2]] [[[1]]]) 2).getD 0 [] →
      ∀ r ∈ (custom_index_search [[1]] [[0], [2]] [[[1]]]
          (custom_indexing_algorithm [[0], [2]] [[[1]]]) 2).getD 0 [],
        dist2 (([[(0 : ℚ)], [2]] : List Vec).getD r [])
            (([[(1 : ℚ)]] : List Vec).getD 0 [])
          ≤ dist2 (([[(0 : ℚ)], [2]] : List Vec).getD c [])
              (([[(1 : ℚ)]] : List Vec).getD 0 [])) ∧
    ((gather_candidates (([[(1 : ℚ)]] : List Vec).getD 0 []) [[[1]]]
        (custom_indexing_algorithm [[0], [2]] [[[1]]])
        (max_candidates [[0], [2]])).length ≤ 2 →
      ∀ c ∈ gather_candidates (([[(1 : ℚ)]] : List Vec).getD 0 []) [[[1]]]
          (custom_indexing_algorithm [[0], [2]] [[[1]]])
          (max_candidates [[0], [2]]),
        c ∈ (custom_index_search [[1]] [[0], [2]] [[[1]]]
            (custom_indexing_algorithm [[0], [2]] [[[1]]]) 2).getD 0 [])) := by
  have hne : gather_candidates (([[(1 : ℚ)]] : List Vec).getD 0 []) [[[1]]]
      (custom_indexing_algorithm [[0], [2]] [[[1]]])
      (max_candidates [[0], [2]]) ≠ [] := by
    norm_num [gather_candidates, custom_indexing_algorithm, List.enum,
      List.enumFrom, htInsert, hash_vector, bucketLookup, dedupInsert,
      max_candidates]
  exact ⟨⟨by norm_num, hne⟩,
    custom_search_rerank_correct [[1]] [[0], [2]] [[[1]]]
      (custom_indexing_algorithm [[0], [2]] [[[1]]]) 2 0 (by norm_num) hne⟩

/-- C7: every returned id was gathered from a bucket whose key equals one of
the query's signatures — only the first `max_candidates` ids of each
matching bucket are eligible (`1000` if `D < 150` else `1400`, the
definition of `max_candidates`) — and the result row has no duplicates. -/
theorem custom_search_from_buckets (qvs ivs : List Vec) (hfs : List Mat)
    (hts : List HashTable) (k i : ℕ) (hi : i < qvs.length) :
    ((custom_index_search qvs ivs hfs hts k).getD i []).Nodup ∧
    ∀ r ∈ (custom_index_search qvs ivs hfs hts k).getD i [],
      ∃ ft ∈ hfs.zip hts, ∃ b,
        bucketLookup ft.2 (hash_vector (qvs.getD i []) ft.1) = some b ∧
        r ∈ b.take (max_candidates ivs) := by
  rw [custom_index_search_getD qvs ivs hfs hts k hi]
  by_cases he : gather_candidates (qvs.getD i []) hfs hts (max_candidates ivs) = []
  · rw [search_query_empty ivs hfs hts k (max_candidates ivs) (qvs.getD i []) he]
    exact ⟨List.nodup_nil, fun r hr => absurd hr (List.not_mem_nil r)⟩
  · rw [search_query_eq ivs hfs hts k (max_candidates ivs) (qvs.getD i []) he]
    constructor
    · exact rerank_nodup _ _ _ _ (gather_candidates_nodup _ _ _ _)
    · intro r hr
      exact mem_gather_candidates (rerank_subset _ _ _ _ r hr)

/-- Witness for C7, at the same concrete instance as the C1 witness. -/
theorem custom_search_from_buckets_witness :
    ((custom_index_search [[1]] [[0], [2]] [[[1]]]
        (custom_indexing_algorithm [[0], [2]] [[[1]]]) 2).getD 0 []).Nodup ∧
    ∀ r ∈ (custom_index_search [[1]] [[0], [2]] [[[1]]]
        (custom_indexing_algorithm [[0], [2]] [[[1]]]) 2).getD 0 [],
      ∃ ft ∈ ([[[1]]] : List Mat).zip (custom_indexing_algorithm [[0], [2]] [[[1]]]),
        ∃ b, bucketLookup ft.2
            (hash_vector (([[(1 : ℚ)]] : List Vec).getD 0 []) ft.1) = some b ∧
          r ∈ b.take (max_candidates [[0], [2]]) :=
  custom_search_from_buckets [[1]] [[0], [2]] [[[1]]]
    (custom_indexing_algorithm [[0], [2]] [[[1]]]) 2 0 (by norm_num)

/-- C8: a query whose candidate set is empty after probing all hash tables
gets an empty result row — no error, no fallback scan — and a query with an
empty approximate row scores recall `0` (not an error) under
`compute_recall_at_k`. -/
theorem custom_search_empty_result (qvs ivs : List Vec) (hfs : List Mat)
    (hts : List HashTable) (k i : ℕ) (hi : i < qvs.length)
    (he : gather_candidates (qvs.getD i []) hfs hts (max_candidates ivs) = []) :
    (custom_index_search qvs ivs hfs hts k).getD i [] = [] ∧
    ∀ (kk : ℤ) (gt_row : List ℕ), kk ≠ 0 →
      compute_recall_at_k [gt_row] [[]] kk = some 0 := by
  constructor
  · rw [custom_index_search_getD qvs ivs hfs hts k hi]
    exact search_query_empty ivs hfs hts k (max_candidates ivs) (qvs.getD i []) he
  · intro kk gt_row hkk
    rw [compute_recall_at_k,
      if_neg (by push_neg; exact ⟨by norm_num, hkk, by norm_num⟩)]
    have hset : setInterCard [] gt_row = 0 := rfl
    have h0 : pyRound3 0 = 0 := by
      have h := pyRound3_intCast 0
      push_cast at h
      exact h
    norm_num [(show List.range 1 = [0] from rfl), hset, h0]

/-- Witness for C8: one hash function, an empty hash table (so every lookup
misses), query `[1]`; and `compute_recall_at_k [[5]] [[]] 10 = some 0`. -/
theorem custom_search_empty_result_witness :
    (0 < ([[(1 : ℚ)]] : List Vec).length ∧
      gather_candidates (([[(1 : ℚ)]] : List Vec).getD 0 []) [[[1]]]
        ([[]] : List HashTable) (max_candidates [[2]]) = []) ∧
    ((custom_index_search [[1]] [[2]] [[[1]]] ([[]] : List HashTable) 3).getD 0 []
        = [] ∧
    ∀ (kk : ℤ) (gt_row : List ℕ), kk ≠ 0 →
      compute_recall_at_k [gt_row] [[]] kk = some 0) := by
  have he : gather_candidates (([[(1 : ℚ)]] : List Vec).getD 0 []) [[[1]]]
      ([[]] : List HashTable) (max_candidates [[2]]) = [] := by
    norm_num [gather_candidates, bucketLookup]
  exact ⟨⟨by norm_num, he⟩,
    custom_search_empty_result [[1]] [[2]] [[[1]]] ([[]] : List HashTable) 3 0
      (by norm_num) he⟩

lemma htInsert_join_perm (ht : HashTable) (key : List Bool) (i : ℕ) :
    List.Perm (((htInsert ht key i).map Prod.snd).flatten)
      (i :: (ht.map Prod.snd).flatten) := by
  induction ht with
  | nil => simp [htInsert]
  | cons hd rest ih =>
      obtain ⟨kk, l⟩ := hd
      simp only [htInsert]
      by_cases hk : kk = key
      · rw [if_pos hk]
        simp only [List.map_cons, List.flatten_cons, List.append_assoc,
          List.singleton_append]
        exact List.perm_middle
      · rw [if_neg hk]
        simp only [List.map_cons, List.flatten_cons]
        exact (List.Perm.append_left l ih).trans List.perm_middle

lemma htInsert_bound (ht : HashTable) (key : List Bool) (i : ℕ)
    (h : ∀ kb ∈ ht, List.Sorted (· < ·) kb.2 ∧ ∀ x ∈ kb.2, x < i) :
    ∀ kb ∈ htInsert ht key i,
      List.Sorted (· < ·) kb.2 ∧ ∀ x ∈ kb.2, x < i + 1 := by
  induction ht with
  | nil =>
      intro kb hkb
      simp only [htInsert, List.mem_singleton] at hkb
      subst hkb
      exact ⟨List.sorted_singleton i, by simp⟩
  | cons hd rest ih =>
      obtain ⟨kk, l⟩ := hd
      intro kb hkb
      have hhd := h (kk, l) (List.mem_cons_self _ _)
      simp only [htInsert] at hkb
      by_cases hk : kk = key
      · rw [if_pos hk] at hkb
        rcases List.mem_cons.mp hkb with rfl | hkb'
        · refine ⟨?_, ?_⟩
          · refine List.pairwise_append.mpr
              ⟨hhd.1, List.pairwise_singleton _ _, ?_⟩
            intro a ha b hb
            rw [List.mem_singleton] at hb
            subst hb
            exact hhd.2 a ha
          · intro x hx
            rcases List.mem_append.mp hx with hx' | hx'
            · exact Nat.lt_succ_of_lt (hhd.2 x hx')
            · rw [List.mem_singleton] at hx'
              omega
        · have h2 := h kb (List.mem_cons_of_mem _ hkb')
          exact ⟨h2.1, fun x hx => Nat.lt_succ_of_lt (h2.2 x hx)⟩
      · rw [if_neg hk] at hkb
        rcases List.mem_cons.mp hkb with rfl | hkb'
        · exact ⟨hhd.1, fun x hx => Nat.lt_succ_of_lt (hhd.2 x hx)⟩
        · exact ih (fun kb' hkb'' => h kb' (List.mem_cons_of_mem _ hkb'')) kb hkb'

lemma foldl_tables_getD (hfs : List Mat) (j : ℕ) (hj : j < hfs.length)
    (pl : List (ℕ × Vec)) :
    ∀ tables : List HashTable, tables.length = hfs.length →
      (pl.foldl (fun tables p =>
          (hfs.zip tables).map
            (fun ft => htInsert ft.2 (hash_vector p.2 ft.1) p.1)) tables).getD j []
        = pl.foldl
            (fun ht p => htInsert ht (hash_vector p.2 (hfs.getD j [])) p.1)
            (tables.getD j []) := by
  induction pl with
  | nil => exact fun _ _ => rfl
  | cons p pl ih =>
      intro tables hlen
      rw [List.foldl_cons, List.foldl_cons]
      have hjz : j < (hfs.zip tables).length := by
        rw [List.length_zip, hlen, min_self]
        exact hj
      have hstep_len : ((hfs.zip tables).map
          (fun ft => htInsert ft.2 (hash_vector p.2 ft.1) p.1)).length
          = hfs.length := by
        rw [List.length_map, List.length_zip, hlen, min_self]
      have hz : (hfs.zip tables).getD j (([], []) : Mat × HashTable)
          = (hfs.getD j [], tables.getD j []) := by
        rw [List.getD_eq_getElem _ _ hjz, List.getElem_zip,
          List.getD_eq_getElem _ _ hj,
          List.getD_eq_getElem _ _ (by rw [hlen]; exact hj)]
      have hstep_getD : ((hfs.zip tables).map
          (fun ft => htInsert ft.2 (hash_vector p.2 ft.1) p.1)).getD j []
          = htInsert (tables.getD j []) (hash_vector p.2 (hfs.getD j [])) p.1 := by
        rw [getD_map_list _ (hfs.zip tables) j hjz [] (([], []) : Mat × HashTable),
          hz]
      rw [ih _ hstep_len, hstep_getD]

lemma custom_indexing_getD (ivs : List Vec) (hfs : List Mat) (j : ℕ)
    (hj : j < hfs.length) :
    (custom_indexing_algorithm ivs hfs).getD j [] =
      ivs.enum.foldl
        (fun ht p => htInsert ht (hash_vector p.2 (hfs.getD j [])) p.1) [] := by
  rw [custom_indexing_algorithm,
    foldl_tables_getD hfs j hj ivs.enum (hfs.map (fun _ => []))
      (by rw [List.length_map])]
  have hinit : (hfs.map (fun _ => ([] : HashTable))).getD j [] = [] :=
    getD_map_list _ hfs j hj [] []
  rw [hinit]

lemma foldl_htInsert_invariant (keyf : Vec → List Bool) (l : List Vec) :
    ∀ (n : ℕ) (ht : HashTable),
      (∀ kb ∈ ht, List.Sorted (· < ·) kb.2 ∧ ∀ x ∈ kb.2, x < n) →
      List.Perm ((((List.enumFrom n l).foldl
            (fun ht p => htInsert ht (keyf p.2) p.1) ht).map Prod.snd).flatten)
          ((ht.map Prod.snd).flatten ++ List.range' n l.length) ∧
      ∀ kb ∈ (List.enumFrom n l).foldl
          (fun ht p => htInsert ht (keyf p.2) p.1) ht,
        List.Sorted (· < ·) kb.2 ∧ ∀ x ∈ kb.2, x < n + l.length := by
  induction l with
  | nil =>
      intro n ht h
      constructor
      · simp
      · simpa using h
  | cons v l ih =>
      intro n ht h
      rw [List.enumFrom_cons, List.foldl_cons]
      have hins := htInsert_bound ht (keyf v) n h
      have hperm := htInsert_join_perm ht (keyf v) n
      obtain ⟨ihp, ihb⟩ := ih (n + 1) (htInsert ht (keyf v) n) hins
      constructor
      · refine ihp.trans ?_
        have h1 : List.Perm
            ((((htInsert ht (keyf v) n).map Prod.snd).flatten)
              ++ List.range' (n + 1) l.length)
            ((n :: (ht.map Prod.snd).flatten) ++ List.range' (n + 1) l.length) :=
          hperm.append_right _
        refine h1.trans ?_
        simp only [List.length_cons, List.range'_succ, List.cons_append]
        exact List.perm_middle.symm
      · intro kb hkb
        have h2 := ihb kb hkb
        refine ⟨h2.1, ?_⟩
        intro x hx
        have := h2.2 x hx
        simp only [List.length_cons]
        omega

/-- C9: in every Index built by `custom_indexing_algorithm`, each hash table
assigns every index id `0 .. N-1` to exactly one bucket (the concatenation
of its bucket lists is a permutation of `range N`), and every bucket list is
strictly increasing — first-seen insertion order coincides with ascending
index-id order. -/
theorem indexing_partitions (ivs : List Vec) (hfs : List Mat) (j : ℕ)
    (hj : j < hfs.length) :
    List.Perm ((((custom_indexing_algorithm ivs hfs).getD j []).map Prod.snd).flatten)
      (List.range ivs.length) ∧
    ∀ kb ∈ (custom_indexing_algorithm ivs hfs).getD j [],
      List.Sorted (· < ·) kb.2 := by
  rw [custom_indexing_getD ivs hfs j hj]
  have h := foldl_htInsert_invariant
    (fun v => hash_vector v (hfs.getD j [])) ivs 0 [] (by simp)
  constructor
  · have h1 := h.1
    rw [List.range_eq_range' ivs.length]
    simpa using h1
  · intro kb hkb
    exact (h.2 kb hkb).1

/-- Witness for C9: two 1-d vectors, one hash function. -/
theorem indexing_partitions_witness :
    0 < ([[[(1 : ℚ)]]] : List Mat).length ∧
    (List.Perm ((((custom_indexing_algorithm [[0], [2]] [[[1]]]).getD 0 []).map
          Prod.snd).flatten)
        (List.range ([[(0 : ℚ)], [2]] : List Vec).length) ∧
      ∀ kb ∈ (custom_indexing_algorithm [[0], [2]] [[[1]]]).getD 0 [],
        List.Sorted (· < ·) kb.2) :=
  ⟨by norm_num, indexing_partitions [[0], [2]] [[[1]]] 0 (by norm_num)⟩

/-- C10: with one fixed Hash Family and Vector Collection, two Index builds
are identical, and so are two searches over the same inputs — including the
composite build-then-search run.  In this embedding the only random source
is the `entropy` argument of `generate_random_hash_functions`;
`custom_indexing_algorithm` and `custom_index_search` do not take it, so
their output is a function of exactly the arguments below. -/
theorem build_and_search_deterministic (qvs qvs' ivs ivs' : List Vec)
    (hfs hfs' : List Mat) (hts hts' : List HashTable) (k k' : ℕ)
    (h1 : qvs = qvs') (h2 : ivs = ivs') (h3 : hfs = hfs') (h4 : hts = hts')
    (h5 : k = k') :
    custom_indexing_algorithm ivs hfs = custom_indexing_algorithm ivs' hfs' ∧
    custom_index_search qvs ivs hfs hts k
        = custom_index_search qvs' ivs' hfs' hts' k' ∧
    custom_index_search qvs ivs hfs (custom_indexing_algorithm ivs hfs) k
        = custom_index_search qvs' ivs' hfs'
            (custom_indexing_algorithm ivs' hfs') k' := by
  subst h1
  subst h2
  subst h3
  subst h4
  subst h5
  exact ⟨rfl, rfl, rfl⟩

/-- Witness for C10, at a concrete build-plus-search instance. -/
theorem build_and_search_deterministic_witness :
    custom_indexing_algorithm [[2]] [[[1]]]
        = custom_indexing_algorithm [[2]] [[[1]]] ∧
    custom_index_search [[1]] [[2]] [[[1]]] ([[]] : List HashTable) 1
        = custom_index_search [[1]] [[2]] [[[1]]] ([[]] : List HashTable) 1 ∧
    custom_index_search [[1]] [[2]] [[[1]]]
        (custom_indexing_algorithm [[2]] [[[1]]]) 1
      = custom_index_search [[1]] [[2]] [[[1]]]
          (custom_indexing_algorithm [[2]] [[[1]]]) 1 :=
  build_and_search_deterministic [[1]] [[1]] [[2]] [[2]] [[[1]]] [[[1]]]
    ([[]] : List HashTable) ([[]] : List HashTable) 1 1 rfl rfl rfl rfl rfl

end LshAnn
